import Mathlib

/-!
Verification development for the valchemy durable key-value store.

The definitions below are a shallow embedding of the Go sources:
`internal/wal/entry` (record codec), `internal/wal/segment` (segment files,
directory listing), `internal/wal` (the WAL service), `internal/storage`
(the sharded engine), `internal/replication` (master streaming step) and
`internal/compute` (command parsing and dispatch).  Go byte strings are
lists of byte values, Go maps are functions into `Option`, fallible calls
return `Except`, and the concurrent WAL service is an explicit transition
system whose events are the atomic sections of the Go code.
-/

deriving instance DecidableEq for Except

namespace Valchemy

/-- A Go string: an arbitrary byte sequence, modelled as a list of byte
values (each below 256 whenever it originates from Go). -/
abbrev GoStr := List Nat

/-- Byte view of an ASCII string literal (UTF-8 bytes coincide with code
points below 128; every literal used by the program is ASCII). -/
def gostr (s : String) : GoStr := s.data.map Char.toNat

/-- Operation byte `OperationSet = 1` from `internal/wal/entry`. -/
def OperationSet : Nat := 1

/-- Operation byte `OperationDelete = 2` from `internal/wal/entry`. -/
def OperationDelete : Nat := 2

/-- Modelled from the spec: the `entry` package in the sources defines only
`OperationSet` and `OperationDelete`, yet the storage engine references
`entry.OperationClear`; that constant's declaration is missing from the
sources.  Spec section 4.1 fixes the encoding `0x03 = Clear`. -/
def OperationClear : Nat := 3

/-- An `Entry` record from `internal/wal/entry.go`: operation byte, key and
value byte strings. -/
structure Entry where
  operation : Nat
  key : GoStr
  value : GoStr

deriving DecidableEq, Repr

/-- Little-endian 4-byte encoding, `binary.LittleEndian.PutUint32`. -/
def putUint32 (n : Nat) : List Nat :=
  [n % 256, n / 256 % 256, n / 65536 % 256, n / 16777216 % 256]

/-- Little-endian decoding of a 4-byte buffer, `binary.LittleEndian.Uint32`. -/
def getUint32 (b : List Nat) : Nat :=
  match b with
  | [b0, b1, b2, b3] => b0 + 256 * b1 + 65536 * b2 + 16777216 * b3
  | _ => 0

/-- The byte image of `Entry.WriteTo` (entry.go lines 24-69 of the variant
with length guards): one operation byte, the key length as u32 LE, the key
bytes, and, only when the operation is Set, the value length and value
bytes.  Oversized keys or values make `WriteTo` fail; callers discard the
partially written bytes, so the model returns only the error. -/
def entryWriteTo (e : Entry) : Except String (List Nat) :=
  if 4294967295 < e.key.length then
    .error "key length exceeds maximum allowed value"
  else if e.operation = OperationSet then
    if 4294967295 < e.value.length then
      .error "value length exceeds maximum allowed value"
    else
      .ok ([e.operation] ++ putUint32 e.key.length ++ e.key
            ++ putUint32 e.value.length ++ e.value)
  else
    .ok ([e.operation] ++ putUint32 e.key.length ++ e.key)

/-- The two errors `io.ReadFull` distinguishes: `io.EOF` when zero bytes
were available and at least one was requested, `io.ErrUnexpectedEOF` when
some but not all requested bytes were available. -/
inductive ReadErr where
  | eof
  | unexpectedEOF

deriving DecidableEq, Repr

/-- Behaviour of `io.ReadFull(r, buf)` on a byte stream: on success it
consumes exactly `n` bytes; with an empty stream and `n > 0` it reports
`io.EOF`; with a non-empty but short stream it reports
`io.ErrUnexpectedEOF`. -/
def readFull (n : Nat) (s : List Nat) : Except ReadErr (List Nat × List Nat) :=
  if n ≤ s.length then .ok (s.take n, s.drop n)
  else if s.length = 0 then .error .eof
  else .error .unexpectedEOF

/-- Model of `Entry.ReadFrom` (entry.go lines 72-121) on a byte stream: reads the
operation byte, the u32 key length, the key, and, only when the operation
byte equals `OperationSet`, the u32 value length and the value.  Returns
the decoded entry and the unconsumed rest; a fresh `Entry` has a zero
value, so non-Set operations decode with an empty value. -/
def entryReadFrom (s : List Nat) : Except ReadErr (Entry × List Nat) :=
  match readFull 1 s with
  | .error er => .error er
  | .ok (opB, s1) =>
    match readFull 4 s1 with
    | .error er => .error er
    | .ok (klB, s2) =>
      match readFull (getUint32 klB) s2 with
      | .error er => .error er
      | .ok (key, s3) =>
        if opB.headD 0 = OperationSet then
          match readFull 4 s3 with
          | .error er => .error er
          | .ok (vlB, s4) =>
            match readFull (getUint32 vlB) s4 with
            | .error er => .error er
            | .ok (value, s5) => .ok (⟨opB.headD 0, key, value⟩, s5)
        else
          .ok (⟨opB.headD 0, key, []⟩, s3)

/-- The decode loop of `ReadSegmentEntries` (segment.go), with explicit
fuel to make the recursion structural: read entries one after another;
`io.EOF` ends the segment cleanly, any other error aborts.  Each decoded
entry consumes at least its operation byte, so fuel `s.length + 1` always
suffices (`readEntriesLoop_congr` below); the fuel-exhausted branch is
unreachable from `readEntriesList`. -/
def readEntriesLoop : Nat → List Nat → Except ReadErr (List Entry)
  | 0, _ => .error .unexpectedEOF
  | fuel + 1, s =>
    match entryReadFrom s with
    | .error .eof => .ok []
    | .error .unexpectedEOF => .error .unexpectedEOF
    | .ok (e, rest) =>
      match readEntriesLoop fuel rest with
      | .error er => .error er
      | .ok es => .ok (e :: es)

/-- The decode loop run with sufficient fuel. -/
def readEntriesList (s : List Nat) : Except ReadErr (List Entry) :=
  readEntriesLoop (s.length + 1) s

/-- Model of `ReadSegmentEntries` (part_013 lines 300-329) restricted to its decoding
behaviour, with the opened file's contents given as bytes: entries are read
until `io.EOF`; any other decode error aborts recovery with an error. -/
def readSegmentEntriesBytes (content : List Nat) : Except String (List Entry) :=
  match readEntriesList content with
  | .error _ => .error "failed to read entry from segment"
  | .ok es => .ok es

/-- Model of `Service.Recover` (wal.go lines 352-369) over the ordered segment
contents: concatenate the entries of every segment, aborting on the first
segment whose decoding fails. -/
def recoverBytes (segs : List (List Nat)) : Except String (List Entry) :=
  match segs with
  | [] => .ok []
  | c :: rest =>
    match readSegmentEntriesBytes c with
    | .error er => .error er
    | .ok es =>
      match recoverBytes rest with
      | .error er => .error er
      | .ok es2 => .ok (es ++ es2)

/-- Cut positions (strict-prefix lengths of an encoded record) at which the
decoder's next `io.ReadFull` call finds zero bytes and therefore reports
`io.EOF` rather than `io.ErrUnexpectedEOF`: position 0 (the record
boundary), position 1 (after the operation byte), position 5 (after the
key-length field), and, for Set entries, after the key bytes or after the
value-length field. -/
def eofCut (e : Entry) (t : Nat) : Prop :=
  t = 0 ∨ t = 1 ∨ t = 5 ∨
    (e.operation = OperationSet ∧ (t = 5 + e.key.length ∨ t = 9 + e.key.length))

instance (e : Entry) (t : Nat) : Decidable (eofCut e t) := by
  unfold eofCut; infer_instance

/-! Segment filenames and directory listing (`internal/wal/segment`). -/

/-- Go `strings.HasPrefix s p`. -/
def hasPrefixL : List Char → List Char → Bool
  | _, [] => true
  | [], _ :: _ => false
  | c :: s, p :: ps => c = p && hasPrefixL s ps

/-- Go `strings.HasSuffix s p`. -/
def hasSuffixL (s p : List Char) : Bool :=
  hasPrefixL s.reverse p.reverse

/-- Go `strings.Contains s p`. -/
def containsL : List Char → List Char → Bool
  | s, p =>
    match s with
    | [] => hasPrefixL [] p
    | c :: r => hasPrefixL (c :: r) p || containsL r p

/-- Go `strings.TrimPrefix s p`. -/
def trimPrefixL (s p : List Char) : List Char :=
  if hasPrefixL s p then s.drop p.length else s

/-- Go `strings.TrimSuffix s p`. -/
def trimSuffixL (s p : List Char) : List Char :=
  if hasSuffixL s p then s.take (s.length - p.length) else s

/-- Decimal digit sequence to a number; `none` on a non-digit. -/
def parseDigits (cs : List Char) : Option Nat :=
  cs.foldl
    (fun acc c =>
      acc.bind fun n =>
        if '0' ≤ c ∧ c ≤ '9' then some (n * 10 + (c.toNat - 48)) else none)
    (some 0)

/-- Go `strconv.ParseInt(s, 10, 64)` reduced to its success domain: an
optional sign, at least one decimal digit, and a value within the signed
64-bit range; everything else (including range overflow) is an error,
which `GetSegmentInfo` turns into skipping the file. -/
def parseInt10 (cs : List Char) : Option Int :=
  match cs with
  | [] => none
  | c :: rest =>
    let neg : Bool := c = '-'
    let digits := if c = '-' || c = '+' then rest else cs
    match digits with
    | [] => none
    | _ =>
      match parseDigits digits with
      | none => none
      | some n =>
        if neg then
          if n ≤ 9223372036854775808 then some (-(n : Int)) else none
        else
          if n < 9223372036854775808 then some (n : Int) else none

/-- Model of `ParseSegmentName` (part_014 lines 17-21): strip `wal-` and `.log`,
parse the rest as a decimal 64-bit integer. -/
def ParseSegmentName (name : List Char) : Option Int :=
  parseInt10 (trimSuffixL (trimPrefixL name ("wal-".data)) (".log".data))

/-- Segment metadata `Info` (part_014 lines 11-14). -/
structure Info where
  id : Int
  name : List Char

deriving DecidableEq, Repr

/-- Model of `GetSegmentInfo` (part_014 lines 33-42): segment info from a file
name, or an error (modelled as `none`) when the name does not parse. -/
def GetSegmentInfo (name : List Char) : Option Info :=
  (ParseSegmentName name).map fun id => ⟨id, name⟩

/-- The name filter of `ListSegments` (part_013 lines 278-289): no `..`
substring, prefix `wal-`, suffix `.log`. -/
def segmentNameOk (name : List Char) : Bool :=
  !containsL name ("..".data) &&
    hasPrefixL name ("wal-".data) &&
    hasSuffixL name (".log".data)

/-- Model of `ListSegments` (part_013 lines 271-297) over the directory's file
names: keep the names passing `segmentNameOk` whose id parses, and sort
by id ascending.  Go's `sort.Slice` with `ID <` returns an arbitrary
`≤`-sorted permutation; `mergeSort` realises one such permutation. -/
def ListSegments (files : List (List Char)) : List Info :=
  ((files.filter segmentNameOk).filterMap GetSegmentInfo).mergeSort
    (fun a b => a.id ≤ b.id)

/-- A file of the WAL directory: name and byte contents. -/
structure DirFile where
  name : List Char
  content : List Nat

deriving DecidableEq, Repr

/-- Model of `ReadSegmentEntries` (part_013 lines 300-329) against a directory
model: open the named file (the path-join plus `Clean` is the identity for
the plain `wal-<id>.log` names produced by `ListSegments`), then decode
its contents. -/
def readSegmentEntriesDir (files : List DirFile) (name : List Char) :
    Except String (List Entry) :=
  match files.find? (fun f => f.name = name) with
  | none => .error "failed to open segment"
  | some f => readSegmentEntriesBytes f.content

/-- The segment loop of `Service.Recover` (wal.go lines 352-369): read the
listed segments in order, concatenating their entries; the first failing
segment aborts recovery. -/
def recoverSegments (files : List DirFile) : List Info → Except String (List Entry)
  | [] => .ok []
  | i :: rest =>
    match readSegmentEntriesDir files i.name with
    | .error er => .error er
    | .ok es =>
      match recoverSegments files rest with
      | .error er => .error er
      | .ok es2 => .ok (es ++ es2)

/-- Model of `Service.Recover` over a directory model: list the segments, then read
them in listed (id-ascending) order. -/
def recoverDir (files : List DirFile) : Except String (List Entry) :=
  recoverSegments files (ListSegments (files.map DirFile.name))

/-- The entries a listed segment decodes to (used to state in which order
`Recover` concatenates them). -/
def segEntriesD (files : List DirFile) (i : Info) : List Entry :=
  match readSegmentEntriesDir files i.name with
  | .ok es => es
  | .error _ => []

/-! Master replication (internal/replication/master.go). -/

/-- One on-disk segment as `safeReadSegment` returns it to the master. -/
structure SegData where
  id : Int
  data : List Nat

deriving DecidableEq, Repr

/-- A message sent by `sendSegment` (master.go lines 192-204): the header
`<id> <payloadSize>\n` followed by exactly the payload bytes. -/
structure SentMessage where
  id : Int
  size : Int
  payload : List Nat

deriving DecidableEq, Repr

/-- Per-replica position the master tracks: `lastSegmentID`,
`lastSegmentSize` (master.go line 61, initialised to `-1, 0`). -/
structure RepState where
  lastSegmentID : Int
  lastSegmentSize : Int

deriving DecidableEq, Repr

/-- Model of `processSingleSegment` (master.go lines 154-189): a segment behind the
replica is skipped; the replica's current segment is skipped when not
longer than `lastSegmentSize` and otherwise its byte suffix from offset
`lastSegmentSize` is sent and the offset advanced; a newer segment is sent
whole and becomes the tracked position.  The Go slice `data[l:]` panics
for `l < 0`; the master reaches the suffix case only with
`0 ≤ lastSegmentSize` (initialised to 0, afterwards a payload length), and
the theorems below assume it, using `Int.toNat` for the drop. -/
def processSingleSegment (seg : SegData) (st : RepState) :
    Option SentMessage × RepState :=
  if seg.id < st.lastSegmentID then (none, st)
  else if seg.id = st.lastSegmentID then
    if (seg.data.length : Int) ≤ st.lastSegmentSize then (none, st)
    else
      let payload := seg.data.drop st.lastSegmentSize.toNat
      (some ⟨seg.id, (payload.length : Int), payload⟩,
        ⟨st.lastSegmentID, st.lastSegmentSize + (payload.length : Int)⟩)
  else
    (some ⟨seg.id, (seg.data.length : Int), seg.data⟩,
      ⟨seg.id, (seg.data.length : Int)⟩)

/-! Storage engine (part_020: sharded map with FNV-1a partitioning). -/

/-- One FNV-1a step: xor the byte in, multiply by the 32-bit FNV prime. -/
def fnv1aStep (h b : Nat) : Nat := ((h ^^^ b) * 16777619) % 4294967296

/-- FNV-1a 32-bit over the key's bytes (`hash/fnv`, `New32a`; part_020
lines 95-109 hash the key to pick a partition). -/
def fnv1a32 (bytes : GoStr) : Nat := bytes.foldl fnv1aStep 2166136261

/-- Model of `getPartition`'s index computation: FNV-1a of the key modulo the 16
default shards (part_020 lines 63, 95-109; the guard returning nil for an
out-of-range `numShards` can never fire with the constant 16). -/
def getPartitionIdx (key : GoStr) : Fin 16 :=
  ⟨fnv1a32 key % 16, Nat.mod_lt _ (by omega)⟩

/-- The engine: 16 partitions, each a map from key to value (part_020
lines 51-61); maps are modelled as functions into `Option`. -/
structure Engine where
  partitions : Fin 16 → GoStr → Option GoStr

/-- Map update `p.data[key] = value`. -/
def mapPut (m : GoStr → Option GoStr) (k v : GoStr) : GoStr → Option GoStr :=
  fun k' => if k' = k then some v else m k'

/-- Map removal `delete(p.data, key)`. -/
def mapDel (m : GoStr → Option GoStr) (k : GoStr) : GoStr → Option GoStr :=
  fun k' => if k' = k then none else m k'

/-- Model of `NewEngine`'s freshly initialised partitions (part_020 lines 66-78). -/
def emptyEngine : Engine := ⟨fun _ _ => none⟩

/-- Model of `Engine.Get` (part_020 lines 163-169): look the key up in its
partition; a missing key yields Go's zero value and `false`. -/
def Engine.getOp (e : Engine) (k : GoStr) : GoStr × Bool :=
  match e.partitions (getPartitionIdx k) k with
  | some v => (v, true)
  | none => ([], false)

/-- Model of `Engine.Set` (part_020 lines 136-160): the WAL write comes first — its
outcome is the `walRes` argument (`none` when the WAL is nil or the write
succeeded) — and on failure the partition is left untouched; on success
the key's partition is updated. -/
def Engine.setOp (e : Engine) (walRes : Option String) (k v : GoStr) :
    Engine × Option String :=
  match walRes with
  | some err => (e, some err)
  | none =>
    (⟨fun i =>
        if i = getPartitionIdx k then mapPut (e.partitions i) k v
        else e.partitions i⟩,
      none)

/-- Model of `Engine.Delete` (part_020 lines 172-195): WAL-first, then remove the
key from its partition. -/
def Engine.delOp (e : Engine) (walRes : Option String) (k : GoStr) :
    Engine × Option String :=
  match walRes with
  | some err => (e, some err)
  | none =>
    (⟨fun i =>
        if i = getPartitionIdx k then mapDel (e.partitions i) k
        else e.partitions i⟩,
      none)

/-- Model of `Engine.Clear` (part_020 lines 198-219): WAL-first, then replace every
partition's map with an empty one. -/
def Engine.clearOp (e : Engine) (walRes : Option String) :
    Engine × Option String :=
  match walRes with
  | some err => (e, some err)
  | none => (⟨fun _ _ => none⟩, none)

/-- Model of `Engine.applyEntries`'s switch on one recovered entry (part_020 lines
112-133): Set and Delete touch the key's partition, Clear resets every
partition, and any other operation byte falls through the switch leaving
the engine untouched. -/
def Engine.applyEntry (e : Engine) (el : Entry) : Engine :=
  if el.operation = OperationSet then
    ⟨fun i =>
      if i = getPartitionIdx el.key then mapPut (e.partitions i) el.key el.value
      else e.partitions i⟩
  else if el.operation = OperationDelete then
    ⟨fun i =>
      if i = getPartitionIdx el.key then mapDel (e.partitions i) el.key
      else e.partitions i⟩
  else if el.operation = OperationClear then
    ⟨fun _ _ => none⟩
  else e

/-- Model of `Engine.applyEntries` (part_020 lines 112-133) over the entry list. -/
def Engine.applyEntries (e : Engine) (es : List Entry) : Engine :=
  es.foldl Engine.applyEntry e

/-- Model of `NewEngine` (part_020 lines 66-92; the single-map variant
engine.go lines 19-45 behaves identically here): fresh empty partitions;
a recovery error is only logged — `Failed to recover from WAL` — and
startup continues, applying whatever entries were recovered (none on
error, since the failed `Recover` returned a nil slice). -/
def NewEngine (recovered : Except String (List Entry)) : Engine :=
  match recovered with
  | .error _ => emptyEngine
  | .ok es => emptyEngine.applyEntries es

/-- A client-visible mutation with the outcome of its WAL write. -/
inductive MutOp where
  | set (walRes : Option String) (k v : GoStr)
  | del (walRes : Option String) (k : GoStr)
  | clear (walRes : Option String)

/-- Run one mutation against the engine. -/
def Engine.applyMut (e : Engine) (op : MutOp) : Engine :=
  match op with
  | .set walRes k v => (e.setOp walRes k v).1
  | .del walRes k => (e.delOp walRes k).1
  | .clear walRes => (e.clearOp walRes).1

/-- Mutations the spec's ordering contract counts as affecting key `k`:
another Set of `k`, a Delete of `k`, or a Clear. -/
def affectsKey (k : GoStr) (op : MutOp) : Prop :=
  match op with
  | .set _ k' _ => k' = k
  | .del _ k' => k' = k
  | .clear _ => True

instance (k : GoStr) (op : MutOp) : Decidable (affectsKey k op) := by
  unfold affectsKey
  cases op <;> infer_instance

/-- Run a sequence of mutations. -/
def Engine.applyMuts (e : Engine) (ops : List MutOp) : Engine :=
  ops.foldl Engine.applyMut e

/-- Success test for `Except` results (used to state that every listed
segment decodes). -/
def okE {ε α : Type} (x : Except ε α) : Bool :=
  match x with
  | .ok _ => true
  | .error _ => false

/-! Command parsing and dispatch (internal/compute). -/

/-- Go's ASCII whitespace set, used by `strings.Fields` for ASCII input:
space, tab, newline, vertical tab, form feed, carriage return. -/
def isSpaceByte (b : Nat) : Bool :=
  b = 32 || b = 9 || b = 10 || b = 11 || b = 12 || b = 13

/-- Model of `strings.Fields` on a byte string: the maximal runs of non-whitespace
bytes (split on whitespace runs, dropping empties). -/
def fieldsL (s : GoStr) : List GoStr :=
  (s.splitOnP isSpaceByte).filter (fun t => !t.isEmpty)

/-- Command type constants (part_021, the variant with CLEAR). -/
def CommandSet : GoStr := gostr "SET"

/-- Command name `GET`. -/
def CommandGet : GoStr := gostr "GET"

/-- Command name `DEL`. -/
def CommandDel : GoStr := gostr "DEL"

/-- Command name `HELP`. -/
def CommandHelp : GoStr := gostr "HELP"

/-- Command name `CLEAR`. -/
def CommandClear : GoStr := gostr "CLEAR"

/-- Response `OK`. -/
def ResponseOK : GoStr := gostr "OK"

/-- The help text (part_021 lines 115-122). -/
def HelpMessage : GoStr :=
  gostr ("Available commands:\n" ++
    "  SET <key> <value>  - Set the value of a key\n" ++
    "  GET <key>         - Get the value of a key\n" ++
    "  DEL <key>         - Delete a key\n" ++
    "  CLEAR             - Remove all keys\n" ++
    "  help, ?           - Show this help message\n" ++
    "  exit              - Exit the client")

/-- A parsed command (parser.go lines 9-12). -/
structure Command where
  type : GoStr
  args : List GoStr

deriving DecidableEq, Repr

/-- The compute-layer errors (compute/errors.go). -/
inductive CompErr where
  | invalidFormat
  | unknownCommand
  | invalidSetFormat
  | keyNotFound
  | readOnlyReplica
  | walFailure (msg : String)

deriving DecidableEq, Repr

/-- Model of `validateCommand` (parser.go lines 43-60): every command must carry at
least one argument; `SET` exactly two; `GET`/`DEL` fall through; any other
name — `HELP`, `CLEAR`, `?` and lower-case spellings included — is
unknown. -/
def validateCommand (cmd : Command) : Option CompErr :=
  if cmd.args.length < 1 then some .invalidFormat
  else if cmd.type = CommandSet then
    if cmd.args.length ≠ 2 then some .invalidSetFormat else none
  else if cmd.type = CommandGet || cmd.type = CommandDel then none
  else some .unknownCommand

/-- Model of `ParseCommand` (parser.go lines 24-40): split the input into fields,
take the first as the command name — with no case folding — and validate. -/
def ParseCommand (input : GoStr) : Except CompErr Command :=
  match fieldsL input with
  | [] => .error .invalidFormat
  | t :: args =>
    let cmd : Command := ⟨t, args⟩
    match validateCommand cmd with
    | some er => .error er
    | none => .ok cmd

/-- Model of `config.ReplicationType`. -/
inductive ReplicationType where
  | master
  | replica

deriving DecidableEq, Repr

/-- Model of `Handler.handleCommand` (compute.go lines 44-86).  On a replica, any
command other than `HELP`/`GET` is rejected before the engine is touched.
`walRes` is the outcome of the WAL write performed by whichever engine
mutation runs.  Go indexes `cmd.Args` unchecked and panics when the
argument is missing; the panic is modelled as `none`. -/
def handleCommand (rt : ReplicationType) (walRes : Option String)
    (cmd : Command) (e : Engine) :
    Option (Engine × Except CompErr GoStr) :=
  if rt = .replica ∧ cmd.type ≠ CommandHelp ∧ cmd.type ≠ CommandGet then
    some (e, .error .readOnlyReplica)
  else if cmd.type = CommandHelp then
    some (e, .ok HelpMessage)
  else if cmd.type = CommandSet then
    match cmd.args with
    | k :: v :: _ =>
      match e.setOp walRes k v with
      | (e', some msg) => some (e', .error (.walFailure msg))
      | (e', none) => some (e', .ok ResponseOK)
    | _ => none
  else if cmd.type = CommandGet then
    match cmd.args with
    | k :: _ =>
      match e.getOp k with
      | (v, true) => some (e, .ok v)
      | (_, false) => some (e, .error .keyNotFound)
    | [] => none
  else if cmd.type = CommandDel then
    match cmd.args with
    | k :: _ =>
      match e.delOp walRes k with
      | (e', some msg) => some (e', .error (.walFailure msg))
      | (e', none) => some (e', .ok ResponseOK)
    | [] => none
  else if cmd.type = CommandClear then
    match e.clearOp walRes with
    | (e', some msg) => some (e', .error (.walFailure msg))
    | (e', none) => some (e', .ok ResponseOK)
  else
    some (e, .error .unknownCommand)

/-! WAL service (internal/wal/wal.go, lines 158-369) as an interleaving
transition system.  Each event is one atomic section of the Go code: the
`batchMu`-locked regions run atomically, and `handleFlushTimer`'s quit
branch — which holds no lock — is its own event. -/

/-- A segment handle (internal/wal/segment, the `O_EXCL`, lazy-creation
variant of part_013 lines 163-268): `created` is `s.file != nil`,
`closed` marks the closed file descriptor, `buf` the bytes sitting in the
`bufio.Writer`, `fileBytes` the bytes written to the OS file, and
`synced` the bytes covered by the last successful fsync.  Entries in the
traces below are far below bufio's 4096-byte threshold, so the buffer
never flushes on its own. -/
structure SegM where
  created : Bool
  closed : Bool
  buf : List Nat
  fileBytes : List Nat
  synced : List Nat
  size : Nat

deriving DecidableEq, Repr

/-- A fresh segment after `NewSegment`: name chosen, file not yet created. -/
def SegM.fresh : SegM := ⟨false, false, [], [], [], 0⟩

/-- Model of `Segment.Write`: `CreateSegmentFile` on first use, then
`Entry.WriteTo` into the buffered writer and the size update.
`WriteTo` can only fail on a key or value beyond 4 GiB, which no trace
below reaches, so its partially buffered bytes are not modelled. -/
def SegM.write (s : SegM) (e : Entry) : Except String SegM :=
  let s := if s.created then s else { s with created := true }
  match entryWriteTo e with
  | .error er => .error er
  | .ok bs => .ok { s with buf := s.buf ++ bs, size := s.size + bs.length }

/-- Model of `Segment.Sync`: a no-op before the file exists; flush the buffer to
the file — which fails on a closed descriptor — then fsync. -/
def SegM.syncOp (s : SegM) : Except String SegM :=
  if !s.created then .ok s
  else if s.closed then .error "failed to flush buffer"
  else
    .ok { s with fileBytes := s.fileBytes ++ s.buf, buf := [],
                 synced := s.fileBytes ++ s.buf }

/-- Model of `Segment.Close`: a no-op before the file exists; flush and close. -/
def SegM.closeOp (s : SegM) : Except String SegM :=
  if !s.created then .ok s
  else if s.closed then .error "failed to flush buffer on close"
  else .ok { s with fileBytes := s.fileBytes ++ s.buf, buf := [], closed := true }

/-- WAL configuration knobs used by the write path. -/
structure WalCfg where
  batchSize : Nat
  maxSegBytes : Nat

deriving DecidableEq, Repr

/-- The service state (wal.go lines 172-190) together with the pieces of
goroutine state the interleaving needs: whether `close(w.quit)` happened
(`quitSignalled`), whether `w.quit` was overwritten with nil
(`quitNil`), whether a `handleFlushTimer` goroutine is pending and
whether it captured a non-nil quit channel when it was spawned.
`results` records, per writer id, the value delivered on that writer's
`done` channel (a non-nil value is additionally wrapped in `ErrFlushWAL`
by `Write` before being returned); `closeResult` records `Close()`'s
return value. -/
structure WalSvc where
  batch : List Entry
  flushDone : List Nat
  timerActive : Bool
  quitSignalled : Bool
  quitNil : Bool
  pendingTimer : Bool
  timerSeesQuit : Bool
  seg : SegM
  oldSegs : List SegM
  results : List (Nat × Option String)
  closeResult : Option (Option String)

deriving DecidableEq, Repr

/-- The state `New` (wal.go lines 194-213) leaves behind. -/
def WalSvc.new : WalSvc :=
  ⟨[], [], false, false, false, false, false, SegM.fresh, [], [], none⟩

/-- The entry-writing loop of `flushBatch` (wal.go lines 296-307),
including mid-batch rotation (`rotateSegment`, lines 320-332).  The
segment state reached so far is kept when an error aborts the loop, as in
Go, where the earlier `Write` calls have already mutated the segment
(rotation errors leave the just-closed segment current, matching
`rotateSegment` returning before the replacement). -/
def flushEntries (cfg : WalCfg) (seg : SegM) (oldSegs : List SegM) :
    List Entry → SegM × List SegM × Option String
  | [] => (seg, oldSegs, none)
  | e :: rest =>
    match seg.write e with
    | .error er => (seg, oldSegs, some er)
    | .ok seg' =>
      if cfg.maxSegBytes ≤ seg'.size then
        match seg'.closeOp with
        | .error er => (seg', oldSegs, some er)
        | .ok closedSeg => flushEntries cfg SegM.fresh (oldSegs ++ [closedSeg]) rest
      else
        flushEntries cfg seg' oldSegs rest

/-- Model of `flushBatch` (wal.go lines 285-317), caller holding `batchMu`: empty
batches are a no-op; otherwise stop the timer, write every entry with
rotation, sync, and clear the batch only on success (an error returns
early, leaving the batch as it was). -/
def flushBatch (cfg : WalCfg) (w : WalSvc) : WalSvc × Option String :=
  if w.batch.isEmpty then (w, none)
  else
    let w := { w with timerActive := false }
    match flushEntries cfg w.seg w.oldSegs w.batch with
    | (seg', oldSegs', some er) =>
      ({ w with seg := seg', oldSegs := oldSegs' }, some er)
    | (seg', oldSegs', none) =>
      match seg'.syncOp with
      | .error er => ({ w with seg := seg', oldSegs := oldSegs' }, some er)
      | .ok seg'' =>
        ({ w with seg := seg'', oldSegs := oldSegs', batch := [] }, none)

/-- Model of `notifyWaiters` (wal.go lines 275-281): deliver the result to every
registered waiter and clear the list. -/
def notifyWaiters (w : WalSvc) (r : Option String) : WalSvc :=
  { w with results := w.results ++ w.flushDone.map (fun id => (id, r)),
           flushDone := [] }

/-- The events of the transition system, one per atomic section. -/
inductive WalEv where
  | write (id : Nat) (e : Entry)
  | timerFire
  | quitNotify
  | closeBegin
  | closeFinish

deriving DecidableEq, Repr

/-- One step of the system.

`write id e` is `Service.Write`'s locked section (wal.go lines 217-243):
register the entry and the waiter; a full batch flushes and notifies at
once, otherwise `startFlushTimerIfNeeded` spawns a `handleFlushTimer`
goroutine (which captures the current `w.quit`, nil after `Close`).

`timerFire` is `handleFlushTimer`'s timer branch (lines 260-267), enabled
while the timer was not stopped.

`quitNotify` is `handleFlushTimer`'s quit branch (lines 268-270): enabled
once `close(w.quit)` has happened for a goroutine that captured the
non-nil channel; it notifies every waiter with `nil` — reporting success —
without flushing anything, and without holding the lock.

`closeBegin` is `Close` up to the lock (lines 335-340): a second close
returns `ErrWALClosed`; otherwise the quit channel is closed and nilled.

`closeFinish` is `Close`'s locked remainder (lines 341-348): final flush,
then closing the current segment. -/
def walStep (cfg : WalCfg) (w : WalSvc) : WalEv → WalSvc
  | .write id e =>
    let w := { w with batch := w.batch ++ [e], flushDone := w.flushDone ++ [id] }
    if cfg.batchSize ≤ w.batch.length then
      let (w', r) := flushBatch cfg w
      notifyWaiters w' r
    else if !w.timerActive then
      { w with timerActive := true, pendingTimer := true,
               timerSeesQuit := !w.quitNil }
    else w
  | .timerFire =>
    if w.pendingTimer && w.timerActive then
      let (w', r) := flushBatch cfg w
      let w'' := notifyWaiters w' r
      { w'' with pendingTimer := false }
    else w
  | .quitNotify =>
    if w.pendingTimer && w.timerSeesQuit && w.quitSignalled then
      let w' := notifyWaiters w none
      { w' with pendingTimer := false }
    else w
  | .closeBegin =>
    if w.quitNil then { w with closeResult := some (some "WAL already closed") }
    else { w with quitSignalled := true, quitNil := true }
  | .closeFinish =>
    let (w', r) := flushBatch cfg w
    match r with
    | some er => { w' with closeResult := some (some ("failed to flush final batch: " ++ er)) }
    | none =>
      match w'.seg.closeOp with
      | .error er => { w' with closeResult := some (some er) }
      | .ok seg' => { w' with seg := seg', closeResult := some none }

/-- Run a trace of events from the fresh service. -/
def runWal (cfg : WalCfg) (evs : List WalEv) : WalSvc :=
  evs.foldl (walStep cfg) WalSvc.new

/-- The segment bytes guaranteed to survive a crash: for every file that
exists on disk, exactly its fsync-covered bytes (anything newer may be
lost with the page cache).  Files never created do not exist. -/
def walCrashSegs (w : WalSvc) : List (List Nat) :=
  ((w.oldSegs ++ [w.seg]).filter SegM.created).map SegM.synced

/-! Theorems. -/

theorem readFull_ok (n : Nat) (s a b : List Nat)
    (h : readFull n s = .ok (a, b)) :
    n ≤ s.length ∧ a = s.take n ∧ b = s.drop n := by
  unfold readFull at h
  split at h
  · next hn =>
    simp only [Except.ok.injEq, Prod.mk.injEq] at h
    exact ⟨hn, h.1.symm, h.2.symm⟩
  · split at h <;> exact absurd h (by simp)

theorem readFull_exact (s t : List Nat) :
    readFull s.length (s ++ t) = .ok (s, t) := by
  unfold readFull
  rw [if_pos (by simp)]
  simp

theorem entryReadFrom_consumes (s : List Nat) (e : Entry) (rest : List Nat)
    (h : entryReadFrom s = .ok (e, rest)) : rest.length < s.length := by
  unfold entryReadFrom at h
  cases h1 : readFull 1 s with
  | error er => simp only [h1] at h; exact absurd h (by simp)
  | ok p1 =>
    obtain ⟨opB, s1⟩ := p1
    simp only [h1] at h
    obtain ⟨hn1, -, hs1⟩ := readFull_ok 1 s opB s1 h1
    cases h2 : readFull 4 s1 with
    | error er => simp only [h2] at h; exact absurd h (by simp)
    | ok p2 =>
      obtain ⟨klB, s2⟩ := p2
      simp only [h2] at h
      obtain ⟨-, -, hs2⟩ := readFull_ok 4 s1 klB s2 h2
      cases h3 : readFull (getUint32 klB) s2 with
      | error er => simp only [h3] at h; exact absurd h (by simp)
      | ok p3 =>
        obtain ⟨key, s3⟩ := p3
        simp only [h3] at h
        obtain ⟨-, -, hs3⟩ := readFull_ok _ s2 key s3 h3
        have hlen3 : s3.length < s.length := by
          subst hs1 hs2 hs3
          simp only [List.length_drop]
          omega
        by_cases hop : opB.headD 0 = OperationSet
        · rw [if_pos hop] at h
          cases h4 : readFull 4 s3 with
          | error er => simp only [h4] at h; exact absurd h (by simp)
          | ok p4 =>
            obtain ⟨vlB, s4⟩ := p4
            simp only [h4] at h
            obtain ⟨-, -, hs4⟩ := readFull_ok 4 s3 vlB s4 h4
            cases h5 : readFull (getUint32 vlB) s4 with
            | error er => simp only [h5] at h; exact absurd h (by simp)
            | ok p5 =>
              obtain ⟨value, s5⟩ := p5
              simp only [h5, Except.ok.injEq, Prod.mk.injEq] at h
              obtain ⟨-, -, hs5⟩ := readFull_ok _ s4 value s5 h5
              have hrest : rest = s5 := h.2.symm
              subst hrest hs4 hs5
              simp only [List.length_drop]
              omega
        · rw [if_neg hop] at h
          simp only [Except.ok.injEq, Prod.mk.injEq] at h
          have hrest : rest = s3 := h.2.symm
          subst hrest
          exact hlen3

/-- Any fuel of at least `s.length + 1` computes the same result. -/
theorem readEntriesLoop_congr (fuel fuel2 : Nat) (s : List Nat)
    (h : s.length + 1 ≤ fuel) (h2 : s.length + 1 ≤ fuel2) :
    readEntriesLoop fuel s = readEntriesLoop fuel2 s := by
  induction fuel using Nat.strong_induction_on generalizing fuel2 s with
  | _ fuel ih =>
    obtain ⟨f1, rfl⟩ : ∃ u, fuel = u + 1 := ⟨fuel - 1, by omega⟩
    obtain ⟨f2, rfl⟩ : ∃ u, fuel2 = u + 1 := ⟨fuel2 - 1, by omega⟩
    simp only [readEntriesLoop]
    cases he : entryReadFrom s with
    | error er => cases er <;> rfl
    | ok p =>
      obtain ⟨e, rest⟩ := p
      have hc := entryReadFrom_consumes s e rest he
      simp only []
      rw [ih f1 (by omega) f2 rest (by omega) (by omega)]

theorem readEntriesList_step (s : List Nat) :
    readEntriesList s =
      match entryReadFrom s with
      | .error .eof => .ok []
      | .error .unexpectedEOF => .error .unexpectedEOF
      | .ok (e, rest) =>
        match readEntriesList rest with
        | .error er => .error er
        | .ok es => .ok (e :: es) := by
  unfold readEntriesList
  conv_lhs => rw [readEntriesLoop]
  cases he : entryReadFrom s with
  | error er => cases er <;> rfl
  | ok p =>
    obtain ⟨e, rest⟩ := p
    have hc := entryReadFrom_consumes s e rest he
    simp only []
    rw [readEntriesLoop_congr s.length (rest.length + 1) rest (by omega)
      (by omega)]

theorem getUint32_putUint32 (n : Nat) (h : n < 4294967296) :
    getUint32 (putUint32 n) = n := by
  simp only [putUint32, getUint32]
  omega

theorem readFull_short (n : Nat) (s : List Nat) (h : s.length < n) :
    readFull n s = if s.length = 0 then .error .eof else .error .unexpectedEOF := by
  unfold readFull
  rw [if_neg (by omega)]

theorem readFull_take_exact (a b : List Nat) (t : Nat) (h : a.length ≤ t) :
    readFull a.length ((a ++ b).take t) = .ok (a, b.take (t - a.length)) := by
  rw [List.take_append_eq_append_take, List.take_of_length_le h]
  exact readFull_exact a _

theorem readFull_one (x : Nat) (r : List Nat) :
    readFull 1 (x :: r) = .ok ([x], r) :=
  readFull_exact [x] r

theorem readFull_put (n : Nat) (r : List Nat) :
    readFull 4 (putUint32 n ++ r) = .ok (putUint32 n, r) :=
  readFull_exact (putUint32 n) r

/-- Decoding an encoded entry, followed by any unread suffix, returns the
entry and leaves the suffix: the operation, key and value round-trip,
except that a non-Set entry is decoded with an empty value. -/
theorem entryReadFrom_entryWriteTo (e : Entry) (bs t : List Nat)
    (hw : entryWriteTo e = .ok bs)
    (hnv : e.operation ≠ OperationSet → e.value = []) :
    entryReadFrom (bs ++ t) = .ok (e, t) := by
  obtain ⟨eop, ekey, eval⟩ := e
  simp only at hnv ⊢
  by_cases hk : 4294967295 < ekey.length
  · rw [entryWriteTo, if_pos hk] at hw
    exact absurd hw (by simp)
  by_cases hop : eop = OperationSet
  · by_cases hv : 4294967295 < eval.length
    · rw [entryWriteTo, if_neg hk] at hw
      simp only [hop, if_pos rfl] at hw
      rw [if_pos hv] at hw
      exact absurd hw (by simp)
    · rw [entryWriteTo, if_neg hk] at hw
      simp only [hop, if_pos rfl] at hw
      rw [if_neg hv] at hw
      obtain rfl := (Except.ok.inj hw).symm
      have g1 : getUint32 (putUint32 ekey.length) = ekey.length :=
        getUint32_putUint32 _ (by omega)
      have g2 : getUint32 (putUint32 eval.length) = eval.length :=
        getUint32_putUint32 _ (by omega)
      simp only [List.cons_append, List.nil_append, List.append_assoc, hop]
      simp only [entryReadFrom, readFull_one, List.headD_cons, readFull_put,
        g1, g2, readFull_exact, eq_self_iff_true, if_true]
  · rw [entryWriteTo, if_neg hk, if_neg hop] at hw
    obtain rfl := (Except.ok.inj hw).symm
    have g1 : getUint32 (putUint32 ekey.length) = ekey.length :=
      getUint32_putUint32 _ (by omega)
    simp only [List.cons_append, List.nil_append, List.append_assoc]
    simp only [entryReadFrom, readFull_one, List.headD_cons, readFull_put,
      g1, readFull_exact, if_neg hop, hnv hop]

theorem readFull_take_eof (a b : List Nat) (ha : 0 < a.length) :
    readFull a.length ((a ++ b).take 0) = .error .eof := by
  simp only [List.take_zero]
  unfold readFull
  have h1 : ¬ (a.length ≤ ([] : List Nat).length) := by
    simp only [List.length_nil, Nat.le_zero]
    omega
  rw [if_neg h1, if_pos (by simp)]

theorem readFull_take_mid (a b : List Nat) (m : Nat) (hm : m < a.length)
    (h0 : m ≠ 0) :
    readFull a.length ((a ++ b).take m) = .error .unexpectedEOF := by
  have hlen : ((a ++ b).take m).length = m := by
    rw [List.length_take, List.length_append]
    omega
  unfold readFull
  rw [if_neg (by omega), if_neg (by omega)]

theorem putUint32_length (n : Nat) : (putUint32 n).length = 4 := rfl

/-- Decoding a strict prefix of an encoded record never yields an entry:
a cut at an internal field boundary is reported as `io.EOF` (which the
segment reader then treats as a clean end of segment), any other cut is
reported as `io.ErrUnexpectedEOF`. -/
theorem entryReadFrom_truncated (e : Entry) (bs : List Nat) (t : Nat)
    (hw : entryWriteTo e = .ok bs) (ht : t < bs.length) :
    entryReadFrom (bs.take t) =
      .error (if eofCut e t then .eof else .unexpectedEOF) := by
  obtain ⟨eop, ekey, eval⟩ := e
  by_cases hk : 4294967295 < ekey.length
  · rw [entryWriteTo, if_pos hk] at hw
    exact absurd hw (by simp)
  rcases Nat.eq_zero_or_pos t with ht0 | htpos
  · subst ht0
    rw [if_pos (by unfold eofCut; dsimp only; omega)]
    simp [entryReadFrom, readFull]
  obtain ⟨t, rfl⟩ : ∃ u, t = u + 1 := ⟨t - 1, by omega⟩
  by_cases hop : eop = OperationSet
  · by_cases hv : 4294967295 < eval.length
    · rw [entryWriteTo, if_neg hk] at hw
      simp only [hop, if_pos rfl] at hw
      rw [if_pos hv] at hw
      exact absurd hw (by simp)
    rw [entryWriteTo, if_neg hk] at hw
    simp only [hop, if_pos rfl] at hw
    rw [if_neg hv] at hw
    obtain rfl := (Except.ok.inj hw).symm
    have hlen : ([OperationSet] ++ putUint32 ekey.length ++ ekey
        ++ putUint32 eval.length ++ eval).length
        = 9 + ekey.length + eval.length := by
      simp [putUint32_length]
      omega
    rw [hlen] at ht
    simp only [List.cons_append, List.nil_append, List.append_assoc,
      List.take_succ_cons]
    simp only [entryReadFrom, readFull_one, List.headD_cons]
    by_cases h2 : t < 4
    · -- cut inside (or right before) the key-length field
      rcases Nat.eq_zero_or_pos t with rfl | h2pos
      · simp only [show readFull 4 ((putUint32 ekey.length
              ++ (ekey ++ (putUint32 eval.length ++ eval))).take 0)
            = .error .eof from readFull_take_eof (putUint32 ekey.length)
              (ekey ++ (putUint32 eval.length ++ eval))
              (by rw [putUint32_length]; omega)]
        rw [if_pos (by unfold eofCut; dsimp only; omega)]
      · simp only [show readFull 4 ((putUint32 ekey.length
              ++ (ekey ++ (putUint32 eval.length ++ eval))).take t)
            = .error .unexpectedEOF from readFull_take_mid
              (putUint32 ekey.length) (ekey ++ (putUint32 eval.length ++ eval))
              t (by rw [putUint32_length]; omega) (by omega)]
        rw [if_neg (by unfold eofCut; dsimp only; omega)]
    · have h2' : 4 ≤ t := by omega
      simp only [show readFull 4 ((putUint32 ekey.length
            ++ (ekey ++ (putUint32 eval.length ++ eval))).take t)
          = .ok (putUint32 ekey.length,
              (ekey ++ (putUint32 eval.length ++ eval)).take (t - 4))
        from readFull_take_exact (putUint32 ekey.length)
          (ekey ++ (putUint32 eval.length ++ eval)) t
          (by rw [putUint32_length]; omega)]
      simp only [getUint32_putUint32 _ (by omega : ekey.length < 4294967296)]
      by_cases h3 : t - 4 < ekey.length
      · -- cut inside (or right before) the key bytes
        rcases Nat.eq_or_lt_of_le (by omega : 4 ≤ t) with h4 | h4
        · simp only [show readFull ekey.length ((ekey
                ++ (putUint32 eval.length ++ eval)).take (t - 4))
              = .error .eof by
            rw [show t - 4 = 0 by omega]
            exact readFull_take_eof ekey (putUint32 eval.length ++ eval)
              (by omega)]
          rw [if_pos (by unfold eofCut; dsimp only; omega)]
        · simp only [show readFull ekey.length ((ekey
                ++ (putUint32 eval.length ++ eval)).take (t - 4))
              = .error .unexpectedEOF from readFull_take_mid ekey
              (putUint32 eval.length ++ eval) (t - 4) h3 (by omega)]
          rw [if_neg (by unfold eofCut; dsimp only; omega)]
      · have h3' : ekey.length ≤ t - 4 := by omega
        simp only [show readFull ekey.length ((ekey
              ++ (putUint32 eval.length ++ eval)).take (t - 4))
            = .ok (ekey, (putUint32 eval.length ++ eval).take (t - 4 - ekey.length))
          from readFull_take_exact ekey (putUint32 eval.length ++ eval)
            (t - 4) h3', if_true]
        by_cases h4 : t - 4 - ekey.length < 4
        · -- cut inside (or right before) the value-length field
          rcases Nat.eq_zero_or_pos (t - 4 - ekey.length) with h5 | h5
          · simp only [show readFull 4 ((putUint32 eval.length ++ eval).take
                  (t - 4 - ekey.length)) = .error .eof by
              rw [h5]
              exact readFull_take_eof (putUint32 eval.length) eval
                (by rw [putUint32_length]; omega)]
            rw [if_pos (by unfold eofCut; dsimp only; omega)]
          · simp only [show readFull 4 ((putUint32 eval.length ++ eval).take
                  (t - 4 - ekey.length)) = .error .unexpectedEOF
              from readFull_take_mid (putUint32 eval.length) eval
                (t - 4 - ekey.length)
                (by rw [putUint32_length]; omega) (by omega)]
            rw [if_neg (by unfold eofCut; dsimp only; omega)]
        · have h4' : 4 ≤ t - 4 - ekey.length := by omega
          simp only [show readFull 4 ((putUint32 eval.length ++ eval).take
                (t - 4 - ekey.length))
              = .ok (putUint32 eval.length,
                  eval.take (t - 4 - ekey.length - 4))
            from readFull_take_exact (putUint32 eval.length) eval
              (t - 4 - ekey.length) (by rw [putUint32_length]; omega)]
          simp only [getUint32_putUint32 _
            (by omega : eval.length < 4294967296)]
          -- the value itself must be cut: t is a strict prefix length
          have h5 : t - 4 - ekey.length - 4 < eval.length := by omega
          rcases Nat.eq_zero_or_pos (t - 4 - ekey.length - 4) with h6 | h6
          · simp only [show readFull eval.length
                (eval.take (t - 4 - ekey.length - 4))
                = .error .eof by
              rw [h6]
              have := readFull_take_eof eval [] (by omega)
              simpa using this]
            rw [if_pos (by unfold eofCut; dsimp only; omega)]
          · simp only [show readFull eval.length
                (eval.take (t - 4 - ekey.length - 4))
                = .error .unexpectedEOF by
              have := readFull_take_mid eval [] _ h5 (by omega)
              simpa using this]
            rw [if_neg (by unfold eofCut; dsimp only; omega)]
  · rw [entryWriteTo, if_neg hk, if_neg hop] at hw
    obtain rfl := (Except.ok.inj hw).symm
    have hlen : ([eop] ++ putUint32 ekey.length ++ ekey).length
        = 5 + ekey.length := by
      simp [putUint32_length]
      omega
    rw [hlen] at ht
    simp only [List.cons_append, List.nil_append, List.append_assoc,
      List.take_succ_cons]
    simp only [entryReadFrom, readFull_one, List.headD_cons]
    by_cases h2 : t < 4
    · rcases Nat.eq_zero_or_pos t with rfl | h2pos
      · simp only [show readFull 4 ((putUint32 ekey.length ++ ekey).take 0)
            = .error .eof from readFull_take_eof (putUint32 ekey.length) ekey
              (by rw [putUint32_length]; omega)]
        rw [if_pos (by unfold eofCut; dsimp only; omega)]
      · simp only [show readFull 4 ((putUint32 ekey.length ++ ekey).take t)
            = .error .unexpectedEOF from readFull_take_mid
              (putUint32 ekey.length) ekey t
              (by rw [putUint32_length]; omega) (by omega)]
        rw [if_neg (by unfold eofCut; dsimp only; omega)]
    · have h2' : 4 ≤ t := by omega
      simp only [show readFull 4 ((putUint32 ekey.length ++ ekey).take t)
          = .ok (putUint32 ekey.length, ekey.take (t - 4))
        from readFull_take_exact (putUint32 ekey.length) ekey t
          (by rw [putUint32_length]; omega)]
      simp only [getUint32_putUint32 _ (by omega : ekey.length < 4294967296)]
      have h3 : t - 4 < ekey.length := by omega
      rcases Nat.eq_or_lt_of_le (by omega : 4 ≤ t) with h4 | h4
      · simp only [show readFull ekey.length (ekey.take (t - 4)) = .error .eof by
          rw [show t - 4 = 0 by omega]
          have := readFull_take_eof ekey [] (by omega)
          simpa using this]
        rw [if_pos (by unfold eofCut; dsimp only; omega)]
      · simp only [show readFull ekey.length (ekey.take (t - 4))
            = .error .unexpectedEOF by
          have := readFull_take_mid ekey [] _ h3 (by omega)
          simpa using this]
        rw [if_neg (by unfold eofCut; dsimp only; omega)]

theorem ListSegments_sorted (files : List (List Char)) :
    (ListSegments files).Pairwise fun a b => a.id ≤ b.id := by
  unfold ListSegments
  have h := @List.sorted_mergeSort Info (fun a b => decide (a.id ≤ b.id))
    (by simp; omega) (by simp; omega)
    ((files.filter segmentNameOk).filterMap GetSegmentInfo)
  simpa using h

theorem ListSegments_mem (files : List (List Char)) (info : Info) :
    info ∈ ListSegments files ↔
      info.name ∈ files ∧ segmentNameOk info.name = true ∧
        ParseSegmentName info.name = some info.id := by
  unfold ListSegments
  rw [List.mem_mergeSort, List.mem_filterMap]
  constructor
  · rintro ⟨name, hmem, hget⟩
    rw [List.mem_filter] at hmem
    unfold GetSegmentInfo at hget
    rw [Option.map_eq_some'] at hget
    obtain ⟨id, hid, rfl⟩ := hget
    exact ⟨hmem.1, hmem.2, hid⟩
  · rintro ⟨hmem, hok, hparse⟩
    refine ⟨info.name, List.mem_filter.mpr ⟨hmem, hok⟩, ?_⟩
    unfold GetSegmentInfo
    rw [hparse]
    cases info
    rfl

theorem recoverSegments_flatten (files : List DirFile) (segs : List Info)
    (h : ∀ i ∈ segs, ∃ es, readSegmentEntriesDir files i.name = .ok es) :
    recoverSegments files segs = .ok ((segs.map (segEntriesD files)).flatten) := by
  induction segs with
  | nil => rfl
  | cons i rest ih =>
    obtain ⟨es, hes⟩ := h i (by simp)
    have hrest := ih fun j hj => h j (by simp [hj])
    simp only [recoverSegments, hes, hrest, List.map_cons, List.flatten_cons]
    unfold segEntriesD
    rw [hes]

theorem Engine.getOp_setOp (e : Engine) (k v : GoStr) :
    ((e.setOp none k v).1).getOp k = (v, true) := by
  unfold Engine.setOp Engine.getOp
  simp [mapPut]

theorem Engine.setOp_partitions (e : Engine) (k v : GoStr) :
    ((e.setOp none k v).1).partitions (getPartitionIdx k) k = some v := by
  unfold Engine.setOp
  simp [mapPut]

theorem Engine.getOp_applyMut (e : Engine) (k : GoStr) (op : MutOp)
    (h : ¬ affectsKey k op) : (e.applyMut op).getOp k = e.getOp k := by
  cases op with
  | set walRes k' v' =>
    cases walRes with
    | some err => rfl
    | none =>
      unfold affectsKey at h
      unfold Engine.applyMut Engine.setOp Engine.getOp
      simp only []
      by_cases hp : getPartitionIdx k = getPartitionIdx k'
      · rw [if_pos hp]
        unfold mapPut
        rw [if_neg (by simpa using fun hc => h hc.symm)]
      · rw [if_neg hp]
  | del walRes k' =>
    cases walRes with
    | some err => rfl
    | none =>
      unfold affectsKey at h
      unfold Engine.applyMut Engine.delOp Engine.getOp
      simp only []
      by_cases hp : getPartitionIdx k = getPartitionIdx k'
      · rw [if_pos hp]
        unfold mapDel
        rw [if_neg (by simpa using fun hc => h hc.symm)]
      · rw [if_neg hp]
  | clear walRes => exact absurd trivial h

theorem Engine.getOp_applyMuts (e : Engine) (k : GoStr) (ops : List MutOp)
    (h : ∀ o ∈ ops, ¬ affectsKey k o) :
    (e.applyMuts ops).getOp k = e.getOp k := by
  induction ops generalizing e with
  | nil => rfl
  | cons o rest ih =>
    have h1 : (Engine.applyMut e o).getOp k = e.getOp k :=
      Engine.getOp_applyMut e k o (h o (by simp))
    have h2 := ih (e.applyMut o) fun o' ho' => h o' (by simp [ho'])
    exact h2.trans h1

theorem entryWriteTo_five_le (e : Entry) (bs : List Nat)
    (hw : entryWriteTo e = .ok bs) : 5 ≤ bs.length := by
  unfold entryWriteTo at hw
  split at hw
  · exact absurd hw (by simp)
  · split at hw
    · split at hw
      · exact absurd hw (by simp)
      · obtain rfl := (Except.ok.inj hw).symm
        simp [putUint32]
    · obtain rfl := (Except.ok.inj hw).symm
      simp [putUint32]

/-- C1: the claim states that a successful `Service.Write` return implies
a completed fsync covering the entry and its presence in every later
`Recover`.  The code violates this: with the entry pending in a non-full
batch, `Close()` runs `close(w.quit)`, and `handleFlushTimer`'s quit
branch (wal.go lines 268-270) answers the waiting writer with `nil` —
success — without any flush or sync; a crash at that point loses the
entry entirely.  This theorem evaluates that interleaving: the writer got
success, no file was even created, and recovery returns nothing. -/
theorem C1_write_ack_without_sync :
    (runWal ⟨8, 1000⟩ [.write 0 ⟨OperationSet, [107], [118]⟩,
        .closeBegin, .quitNotify]).results = [(0, none)] ∧
    (runWal ⟨8, 1000⟩ [.write 0 ⟨OperationSet, [107], [118]⟩,
        .closeBegin, .quitNotify]).seg.synced = [] ∧
    walCrashSegs (runWal ⟨8, 1000⟩ [.write 0 ⟨OperationSet, [107], [118]⟩,
        .closeBegin, .quitNotify]) = [] ∧
    recoverBytes (walCrashSegs (runWal ⟨8, 1000⟩
        [.write 0 ⟨OperationSet, [107], [118]⟩, .closeBegin, .quitNotify]))
      = .ok [] := by
  refine ⟨by decide, by decide, by decide, by decide⟩

/-- C2 counterexample: the claim as stated fails twice.  A Delete entry
carrying a value loses it across the round trip (the codec writes no
value section for non-Set operations), and truncating a Set record by one
trailing byte — the whole value — is answered with `io.EOF`, which
`ReadSegmentEntries` treats as a clean end of segment, not corruption. -/
theorem C2_counterexample :
    entryWriteTo ⟨OperationDelete, [107], [118]⟩ = .ok [2, 1, 0, 0, 0, 107] ∧
    entryReadFrom [2, 1, 0, 0, 0, 107]
      = .ok (⟨OperationDelete, [107], []⟩, []) ∧
    (⟨OperationDelete, [107], []⟩ : Entry) ≠ ⟨OperationDelete, [107], [118]⟩ ∧
    entryWriteTo ⟨OperationSet, [107], [118]⟩
      = .ok [1, 1, 0, 0, 0, 107, 1, 0, 0, 0, 118] ∧
    entryReadFrom (List.take 10 [1, 1, 0, 0, 0, 107, 1, 0, 0, 0, 118])
      = .error .eof ∧
    readSegmentEntriesBytes (List.take 10 [1, 1, 0, 0, 0, 107, 1, 0, 0, 0, 118])
      = .ok [] := by
  refine ⟨by decide, by decide, by decide, by decide, by decide, by decide⟩

/-- C2 (amended): for an entry whose value is empty unless the operation
is Set, decoding the encoding returns the entry exactly; the empty stream
is end-of-segment; and a strict prefix of the encoding never decodes to
an entry — it yields `io.EOF` exactly at the internal field boundaries
(where the segment reader silently stops) and
`io.ErrUnexpectedEOF` (corruption) at every other cut. -/
theorem C2_codec_roundtrip_truncation (e : Entry) (bs : List Nat)
    (hw : entryWriteTo e = .ok bs)
    (hnv : e.operation ≠ OperationSet → e.value = []) :
    entryReadFrom bs = .ok (e, []) ∧
    entryReadFrom [] = .error .eof ∧
    ∀ t, t < bs.length →
      entryReadFrom (bs.take t) =
        .error (if eofCut e t then .eof else .unexpectedEOF) := by
  refine ⟨?_, rfl, fun t ht => entryReadFrom_truncated e bs t hw ht⟩
  have := entryReadFrom_entryWriteTo e bs [] hw hnv
  simpa using this

theorem C2_witness :
    entryWriteTo ⟨OperationSet, [107], [118]⟩
        = .ok [1, 1, 0, 0, 0, 107, 1, 0, 0, 0, 118] ∧
    (entryReadFrom [1, 1, 0, 0, 0, 107, 1, 0, 0, 0, 118]
        = .ok (⟨OperationSet, [107], [118]⟩, []) ∧
      entryReadFrom [] = .error .eof ∧
      ∀ t, t < [1, 1, 0, 0, 0, 107, 1, 0, 0, 0, 118].length →
        entryReadFrom ([1, 1, 0, 0, 0, 107, 1, 0, 0, 0, 118].take t) =
          .error (if eofCut ⟨OperationSet, [107], [118]⟩ t then .eof
            else .unexpectedEOF)) :=
  ⟨by decide,
    C2_codec_roundtrip_truncation ⟨OperationSet, [107], [118]⟩
      [1, 1, 0, 0, 0, 107, 1, 0, 0, 0, 118] (by decide) (by decide)⟩

/-- C3 counterexample: the claim says a truncated or corrupt segment tail
makes recovery fail and the process refuse to start.  On the corrupt
segment `[1, 2, 3]` recovery does fail — but `NewEngine` only logs the
error and starts serving with an empty engine (`Failed to recover from
WAL`, engine.go lines 26-31: "Log error but continue").  Worse, the
truncated tail `[1]` (a record cut right after its operation byte) is
silently accepted as a clean end of segment, so recovery does not even
fail. -/
theorem C3_counterexample :
    readSegmentEntriesBytes [1, 2, 3]
      = .error "failed to read entry from segment" ∧
    NewEngine (.error "failed to read entry from segment") = emptyEngine ∧
    (NewEngine (.error "failed to read entry from segment")).getOp (gostr "foo")
      = ([], false) ∧
    readSegmentEntriesBytes [1] = .ok [] := by
  refine ⟨by decide, rfl, by decide, by decide⟩

/-- C3 (amended): a segment tail cut strictly inside a field makes
`ReadSegmentEntries` fail and `Recover` propagates that failure; a tail
cut exactly at an internal field boundary (for instance right after the
operation byte) is silently treated as end-of-segment; and in either case
the process does not refuse to start: `NewEngine` logs the recovery error
and proceeds with an empty engine. -/
theorem C3_recovery_error_continues (b : List Nat) (er : String)
    (h : readSegmentEntriesBytes b = .error er) :
    recoverBytes [b] = .error er ∧
    (∀ msg : String, NewEngine (.error msg) = emptyEngine) ∧
    (∀ (e : Entry) (bs : List Nat), entryWriteTo e = .ok bs →
      readSegmentEntriesBytes (bs.take 1) = .ok []) := by
  refine ⟨?_, fun msg => rfl, fun e bs hw => ?_⟩
  · unfold recoverBytes
    rw [h]
  · have hlen := entryWriteTo_five_le e bs hw
    have htr := entryReadFrom_truncated e bs 1 hw (by omega)
    rw [if_pos (by unfold eofCut; omega)] at htr
    unfold readSegmentEntriesBytes
    rw [readEntriesList_step, htr]

theorem C3_witness :
    readSegmentEntriesBytes [1, 2, 3]
        = .error "failed to read entry from segment" ∧
    (recoverBytes [[1, 2, 3]] = .error "failed to read entry from segment" ∧
      (∀ msg : String, NewEngine (.error msg) = emptyEngine) ∧
      (∀ (e : Entry) (bs : List Nat), entryWriteTo e = .ok bs →
        readSegmentEntriesBytes (bs.take 1) = .ok [])) :=
  ⟨by decide, C3_recovery_error_continues [1, 2, 3]
    "failed to read entry from segment" (by decide)⟩

/-- C4: a successful `Engine.Set(k, v)` — the WAL write succeeded and the
key's partition was updated — makes a subsequent `Engine.Get(k)` return
`(v, true)` across any sequence of later mutations not affecting `k`
(Sets or Deletes of other keys; a Set or Delete of `k` or a Clear is
excluded).  The value is stored in `getPartitionIdx k`, the very
partition `Engine.Get` consults, so Set and Get of one key resolve to the
same partition by construction. -/
theorem C4_set_then_get (e : Engine) (walRes : Option String) (k v : GoStr)
    (hok : (e.setOp walRes k v).2 = none) (ops : List MutOp)
    (hops : ∀ o ∈ ops, ¬ affectsKey k o) :
    ((e.setOp walRes k v).1).partitions (getPartitionIdx k) k = some v ∧
    (((e.setOp walRes k v).1).applyMuts ops).getOp k = (v, true) := by
  have hwal : walRes = none := by
    cases walRes with
    | none => rfl
    | some msg => exact absurd hok (by simp [Engine.setOp])
  subst hwal
  refine ⟨Engine.setOp_partitions e k v, ?_⟩
  rw [Engine.getOp_applyMuts _ k ops hops]
  exact Engine.getOp_setOp e k v

theorem C4_witness :
    ((Engine.setOp emptyEngine none (gostr "a") (gostr "1")).2 = none ∧
      ∀ o ∈ [MutOp.set none (gostr "b") (gostr "2"),
             MutOp.del none (gostr "b")], ¬ affectsKey (gostr "a") o) ∧
    (((Engine.setOp emptyEngine none (gostr "a") (gostr "1")).1).partitions
        (getPartitionIdx (gostr "a")) (gostr "a") = some (gostr "1") ∧
      (((Engine.setOp emptyEngine none (gostr "a") (gostr "1")).1).applyMuts
          [MutOp.set none (gostr "b") (gostr "2"),
           MutOp.del none (gostr "b")]).getOp (gostr "a")
        = (gostr "1", true)) :=
  ⟨⟨by decide, by decide⟩,
    C4_set_then_get emptyEngine none (gostr "a") (gostr "1") (by decide)
      [MutOp.set none (gostr "b") (gostr "2"), MutOp.del none (gostr "b")]
      (by decide)⟩

/-- C5: the master's per-replica streaming step.  With the tracked offset
non-negative (its initial value is 0 and every update stores a byte
count), `processSingleSegment` skips the replica's current segment when
it is no longer than `lastSegmentSize`; sends exactly the byte suffix
from offset `lastSegmentSize` and advances the offset by the payload
length when it is longer; sends a newer segment whole, updating
`lastSegmentID`/`lastSegmentSize` to it; and skips segments with a
smaller id. -/
theorem C5_process_single_segment (seg : SegData) (st : RepState)
    (hnn : 0 ≤ st.lastSegmentSize) :
    (seg.id = st.lastSegmentID → (seg.data.length : Int) ≤ st.lastSegmentSize →
      processSingleSegment seg st = (none, st)) ∧
    (seg.id = st.lastSegmentID → st.lastSegmentSize < (seg.data.length : Int) →
      processSingleSegment seg st =
        (some ⟨seg.id, ((seg.data.drop st.lastSegmentSize.toNat).length : Int),
            seg.data.drop st.lastSegmentSize.toNat⟩,
          ⟨st.lastSegmentID, st.lastSegmentSize
            + ((seg.data.drop st.lastSegmentSize.toNat).length : Int)⟩)) ∧
    (st.lastSegmentID < seg.id →
      processSingleSegment seg st =
        (some ⟨seg.id, (seg.data.length : Int), seg.data⟩,
          ⟨seg.id, (seg.data.length : Int)⟩)) ∧
    (seg.id < st.lastSegmentID → processSingleSegment seg st = (none, st)) := by
  refine ⟨fun h1 h2 => ?_, fun h1 h2 => ?_, fun h1 => ?_, fun h1 => ?_⟩
  · unfold processSingleSegment
    rw [if_neg (by omega), if_pos h1, if_pos h2]
  · unfold processSingleSegment
    rw [if_neg (by omega), if_pos h1, if_neg (by omega)]
  · unfold processSingleSegment
    rw [if_neg (by omega), if_neg (by omega)]
  · unfold processSingleSegment
    rw [if_pos h1]

theorem C5_witness :
    (0 ≤ (2 : Int)) ∧
    processSingleSegment ⟨7, [10, 20, 30, 40]⟩ ⟨7, 2⟩
      = (some ⟨7, 2, [30, 40]⟩, ⟨7, 4⟩) ∧
    processSingleSegment ⟨8, [10, 20, 30, 40]⟩ ⟨7, 2⟩
      = (some ⟨8, 4, [10, 20, 30, 40]⟩, ⟨8, 4⟩) ∧
    processSingleSegment ⟨6, [10, 20, 30, 40]⟩ ⟨7, 2⟩ = (none, ⟨7, 2⟩) :=
  ⟨by decide,
    ((C5_process_single_segment ⟨7, [10, 20, 30, 40]⟩ ⟨7, 2⟩
      (by decide)).2.1 rfl (by decide)).trans (by decide),
    ((C5_process_single_segment ⟨8, [10, 20, 30, 40]⟩ ⟨7, 2⟩
      (by decide)).2.2.1 (by decide)).trans (by decide),
    (C5_process_single_segment ⟨6, [10, 20, 30, 40]⟩ ⟨7, 2⟩
      (by decide)).2.2.2 (by decide)⟩

/-- C6: `ListSegments` returns exactly the directory entries that pass
the name filter (no `..`, prefix `wal-`, suffix `.log`) and whose decimal
id parses, ordered by id ascending; and when every listed segment
decodes, `Recover` concatenates their entries in exactly that order. -/
theorem C6_list_segments (files : List DirFile) :
    ((ListSegments (files.map DirFile.name)).Pairwise fun a b => a.id ≤ b.id) ∧
    (∀ info : Info, info ∈ ListSegments (files.map DirFile.name) ↔
      (info.name ∈ files.map DirFile.name ∧ segmentNameOk info.name = true ∧
        ParseSegmentName info.name = some info.id)) ∧
    ((∀ i ∈ ListSegments (files.map DirFile.name),
        okE (readSegmentEntriesDir files i.name) = true) →
      recoverDir files = .ok (((ListSegments (files.map DirFile.name)).map
        (segEntriesD files)).flatten)) := by
  refine ⟨ListSegments_sorted _, fun info => ListSegments_mem _ info,
    fun h => ?_⟩
  unfold recoverDir
  apply recoverSegments_flatten
  intro i hi
  have hok := h i hi
  unfold okE at hok
  cases hx : readSegmentEntriesDir files i.name with
  | error er => rw [hx] at hok; exact absurd hok (by simp)
  | ok es => exact ⟨es, rfl⟩

unseal List.merge List.mergeSort in

theorem C6_witness :
    ((ListSegments ([⟨("wal-20.log").data, [2, 1, 0, 0, 0, 107]⟩,
        ⟨("wal-3.log").data, []⟩, ⟨("wal-..4.log").data, []⟩,
        ⟨("passwd").data, []⟩,
        ⟨("wal-x.log").data, []⟩].map DirFile.name)).Pairwise
      fun a b => a.id ≤ b.id) ∧
    ((∀ i ∈ ListSegments ([⟨("wal-20.log").data, [2, 1, 0, 0, 0, 107]⟩,
        ⟨("wal-3.log").data, []⟩, ⟨("wal-..4.log").data, []⟩,
        ⟨("passwd").data, []⟩,
        ⟨("wal-x.log").data, []⟩].map DirFile.name),
      okE (readSegmentEntriesDir [⟨("wal-20.log").data, [2, 1, 0, 0, 0, 107]⟩,
        ⟨("wal-3.log").data, []⟩, ⟨("wal-..4.log").data, []⟩,
        ⟨("passwd").data, []⟩,
        ⟨("wal-x.log").data, []⟩] i.name) = true) →
      recoverDir [⟨("wal-20.log").data, [2, 1, 0, 0, 0, 107]⟩,
        ⟨("wal-3.log").data, []⟩, ⟨("wal-..4.log").data, []⟩,
        ⟨("passwd").data, []⟩, ⟨("wal-x.log").data, []⟩]
        = .ok (((ListSegments ([⟨("wal-20.log").data, [2, 1, 0, 0, 0, 107]⟩,
            ⟨("wal-3.log").data, []⟩, ⟨("wal-..4.log").data, []⟩,
            ⟨("passwd").data, []⟩,
            ⟨("wal-x.log").data, []⟩].map DirFile.name)).map
          (segEntriesD [⟨("wal-20.log").data, [2, 1, 0, 0, 0, 107]⟩,
            ⟨("wal-3.log").data, []⟩, ⟨("wal-..4.log").data, []⟩,
            ⟨("passwd").data, []⟩,
            ⟨("wal-x.log").data, []⟩])).flatten)) ∧
    recoverDir [⟨("wal-20.log").data, [2, 1, 0, 0, 0, 107]⟩,
        ⟨("wal-3.log").data, []⟩, ⟨("wal-..4.log").data, []⟩,
        ⟨("passwd").data, []⟩, ⟨("wal-x.log").data, []⟩]
      = .ok [⟨OperationDelete, [107], []⟩] :=
  ⟨(C6_list_segments _).1, (C6_list_segments _).2.2, by decide⟩

/-- C7: the claim states that after `Close()` every subsequent Write
fails immediately with the WAL-closed error.  `Service.Write` (wal.go
lines 217-243) never consults the closed flag: after a completed Close
(`closeResult = some none`), a new Write is accepted, buffered, flushed
by the timer path into a freshly created segment file, fsynced, and
answered with success — the entry's bytes are on disk and `ErrWALClosed`
is never returned.  Only a second `Close()` reports `ErrWALClosed`. -/
theorem C7_write_after_close_accepted :
    (runWal ⟨8, 1000⟩ [.closeBegin, .closeFinish,
        .write 1 ⟨OperationSet, [107], [118]⟩, .timerFire]).closeResult
      = some none ∧
    (runWal ⟨8, 1000⟩ [.closeBegin, .closeFinish,
        .write 1 ⟨OperationSet, [107], [118]⟩, .timerFire]).results
      = [(1, none)] ∧
    (runWal ⟨8, 1000⟩ [.closeBegin, .closeFinish,
        .write 1 ⟨OperationSet, [107], [118]⟩, .timerFire]).seg.synced
      = [1, 1, 0, 0, 0, 107, 1, 0, 0, 0, 118] ∧
    (runWal ⟨8, 1000⟩ [.closeBegin, .closeBegin]).closeResult
      = some (some "WAL already closed") := by
  refine ⟨by decide, by decide, by decide, by decide⟩

/-- C8: on a replica, `handleCommand` rejects `SET`, `DEL` and `CLEAR`
with `ErrReadOnlyReplica` before touching the engine — the returned
engine is the argument unchanged — while `HELP` returns the help text and
`GET` performs the engine lookup. -/
theorem C8_replica_read_only (walRes : Option String) (cmd : Command)
    (e : Engine) :
    (cmd.type = CommandSet ∨ cmd.type = CommandDel ∨ cmd.type = CommandClear →
      handleCommand .replica walRes cmd e = some (e, .error .readOnlyReplica)) ∧
    (cmd.type = CommandHelp →
      handleCommand .replica walRes cmd e = some (e, .ok HelpMessage)) ∧
    (cmd.type = CommandGet → ∀ k rest, cmd.args = k :: rest →
      handleCommand .replica walRes cmd e =
        some (e, if (e.getOp k).2 then .ok (e.getOp k).1
          else .error .keyNotFound)) := by
  refine ⟨fun h1 => ?_, fun h1 => ?_, fun h1 k rest h2 => ?_⟩
  · unfold handleCommand
    have hcond : ReplicationType.replica = ReplicationType.replica ∧
        cmd.type ≠ CommandHelp ∧ cmd.type ≠ CommandGet := by
      refine ⟨rfl, ?_, ?_⟩ <;> rcases h1 with h | h | h <;> rw [h] <;> decide
    rw [if_pos hcond]
  · unfold handleCommand
    rw [if_neg (by simp [h1]), if_pos h1]
  · unfold handleCommand
    rw [if_neg (by simp [h1]), if_neg (by rw [h1]; decide),
      if_neg (by rw [h1]; decide), if_pos h1, h2]
    cases hg : e.getOp k with
    | mk v found => cases found <;> simp [hg]

theorem C8_witness :
    handleCommand .replica none ⟨CommandSet, [gostr "k", gostr "v"]⟩ emptyEngine
      = some (emptyEngine, .error .readOnlyReplica) ∧
    handleCommand .replica none ⟨CommandDel, [gostr "k"]⟩ emptyEngine
      = some (emptyEngine, .error .readOnlyReplica) ∧
    handleCommand .replica none ⟨CommandClear, [gostr "x"]⟩ emptyEngine
      = some (emptyEngine, .error .readOnlyReplica) ∧
    handleCommand .replica none ⟨CommandHelp, [gostr "x"]⟩ emptyEngine
      = some (emptyEngine, .ok HelpMessage) ∧
    handleCommand .replica none ⟨CommandGet, [gostr "k"]⟩ emptyEngine
      = some (emptyEngine,
          if (emptyEngine.getOp (gostr "k")).2
          then .ok (emptyEngine.getOp (gostr "k")).1
          else .error .keyNotFound) :=
  ⟨(C8_replica_read_only none ⟨CommandSet, [gostr "k", gostr "v"]⟩
      emptyEngine).1 (Or.inl rfl),
    (C8_replica_read_only none ⟨CommandDel, [gostr "k"]⟩ emptyEngine).1
      (Or.inr (Or.inl rfl)),
    (C8_replica_read_only none ⟨CommandClear, [gostr "x"]⟩ emptyEngine).1
      (Or.inr (Or.inr rfl)),
    (C8_replica_read_only none ⟨CommandHelp, [gostr "x"]⟩ emptyEngine).2.1 rfl,
    (C8_replica_read_only none ⟨CommandGet, [gostr "k"]⟩ emptyEngine).2.2
      rfl (gostr "k") [] rfl⟩

/-- C9: the claim states command parsing is case-insensitive and `?` is a
synonym for Help.  `ParseCommand` (parser.go lines 24-40) performs no
case folding and `validateCommand` (lines 43-60) rejects every name other
than the exact upper-case `SET`/`GET`/`DEL` — lower-case `set` is an
unknown command, and `?`, `HELP` and `CLEAR` are rejected as
`ErrInvalidFormat` (they carry no argument) even though
`handleCommand` dispatches `CommandHelp`/`CommandClear`, the test suite
expects `Handle("HELP")` to print the help text, and the help text
itself documents `help, ?`. -/
theorem C9_parser_case_sensitive :
    ParseCommand (gostr "set key1 value1") = .error .unknownCommand ∧
    ParseCommand (gostr "SET key1 value1")
      = .ok ⟨gostr "SET", [gostr "key1", gostr "value1"]⟩ ∧
    ParseCommand (gostr "?") = .error .invalidFormat ∧
    ParseCommand (gostr "? x") = .error .unknownCommand ∧
    ParseCommand (gostr "HELP") = .error .invalidFormat ∧
    ParseCommand (gostr "CLEAR") = .error .invalidFormat ∧
    ParseCommand (gostr "Get key1") = .error .unknownCommand := by
  refine ⟨by decide, by decide, by decide, by decide, by decide, by decide,
    by decide⟩

/-- C10: for any operation byte other than Set, the decoder consumes
exactly the operation byte, the four key-length bytes and the key —
regardless of whether the byte names a known operation — leaving the
value empty and the remaining stream untouched; and engine replay leaves
the engine unchanged on any entry whose operation is none of Set, Delete
and Clear (with Clear's byte value 3 modelled from the spec, its
declaration being absent from the sources). -/
theorem C10_unknown_ops (b : Nat) (key rest : GoStr) (e : Engine)
    (el : Entry) (hb : b ≠ OperationSet) (hb2 : b < 256)
    (hk : key.length ≤ 4294967295)
    (hel : el.operation ≠ OperationSet ∧ el.operation ≠ OperationDelete ∧
      el.operation ≠ OperationClear) :
    entryReadFrom ((b :: (putUint32 key.length ++ key)) ++ rest)
      = .ok (⟨b, key, []⟩, rest) ∧
    e.applyEntry el = e ∧
    e.applyEntries [el] = e := by
  have hw : entryWriteTo ⟨b, key, []⟩ = .ok (b :: (putUint32 key.length ++ key)) := by
    unfold entryWriteTo
    rw [if_neg (by simpa using hk), if_neg hb]
    rfl
  have hdec := entryReadFrom_entryWriteTo ⟨b, key, []⟩ _ rest hw (fun _ => rfl)
  have happ : e.applyEntry el = e := by
    unfold Engine.applyEntry
    rw [if_neg hel.1, if_neg hel.2.1, if_neg hel.2.2]
  exact ⟨hdec, happ, by unfold Engine.applyEntries; simp [happ]⟩

theorem C10_witness :
    ((7 : Nat) ≠ OperationSet ∧ (7 : Nat) < 256 ∧
      ([107] : GoStr).length ≤ 4294967295 ∧
      (Entry.operation ⟨7, [107], [118]⟩ ≠ OperationSet ∧
        Entry.operation ⟨7, [107], [118]⟩ ≠ OperationDelete ∧
        Entry.operation ⟨7, [107], [118]⟩ ≠ OperationClear)) ∧
    (entryReadFrom ((7 :: (putUint32 ([107] : GoStr).length ++ [107])) ++ [9])
        = .ok (⟨7, [107], []⟩, [9]) ∧
      Engine.applyEntry emptyEngine ⟨7, [107], [118]⟩ = emptyEngine ∧
      Engine.applyEntries emptyEngine [⟨7, [107], [118]⟩] = emptyEngine) :=
  ⟨⟨by decide, by decide, by decide, by decide, by decide, by decide⟩,
    C10_unknown_ops 7 [107] [9] emptyEngine ⟨7, [107], [118]⟩ (by decide)
      (by decide) (by decide) ⟨by decide, by decide, by decide⟩⟩

end Valchemy
